import Mathlib

/-!
Shallow embedding of the DIRELEX dictionary core (package `internal/core` of
Softcatala/direlex) and proofs about its data layer: the slug-to-position
lookup index, the derived sorted letter sequence, the navigation resolvers,
and the per-page view-model assembly.

Modelling conventions:
* Go strings are Lean `String`s.  The code only ever indexes `s[0]` on
  strings guaranteed to be ASCII (normalized titles and letter parameters are
  restricted to `a`-`z`), so the Go byte access `s[0]` is modelled as the
  first character of `s.data`.
* The one-character strings produced by `string(entry.NormalizedTitle[0])`
  (dictionary letters) are modelled by their single `Char`; the empty Go
  string that `GetNavigationLetters` returns at the ends of the alphabet is
  modelled by `none : Option Char`.
* Go maps are modelled extensionally: the slug index `map[string]int` built
  by a single overwriting pass becomes a function `String → Option Nat`, and
  the glossary `map[string]template.HTML` becomes an association list whose
  keys are unique.
* Fallible operations return `Option`/`Except`; an out-of-range index access
  that would panic in Go puts the argument outside the function's domain and
  yields `none`.
-/

namespace Direlex

/-- A dictionary entry (struct `Entry` of `internal/core/types.go`):
slug (JSON key `title`), display title, normalized searchable title, and the
HTML content. -/
structure Entry where
  Slug : String
  DisplayTitle : String
  NormalizedTitle : String
  Content : String
deriving DecidableEq

/-- Minimal entry projection used by letter browsing pages
(struct `LetterEntry` of `internal/core/types.go`). -/
structure LetterEntry where
  Slug : String
  DisplayTitle : String
deriving DecidableEq

/-- A semantic field page (struct `SemanticField` of `internal/core/types.go`). -/
structure SemanticField where
  Title : String
  Body : String
  Path : String
deriving DecidableEq

/-- View model for a rendered page (struct `PageData` of
`internal/core/types.go`).  Zero values of the Go struct are the field
defaults; letter-valued fields use `Char`/`Option Char` as explained in the
file header. -/
structure PageData where
  PlainTextTitle : String := ""
  PageType : String := ""
  Letters : List Char := []
  PrevSlug : String := ""
  NextSlug : String := ""
  Letter : Option Char := none
  PrevLetter : Option Char := none
  NextLetter : Option Char := none
  Entries : List LetterEntry := []
  GlossaryLetters : List String := []
  GlossaryContent : List (String × String) := []
  ContentHTML : String := ""
deriving DecidableEq

/-! ### Lookup index construction (`LoadDataFromFile` in `internal/core/data.go`)

The Go loader builds `entryIndexBySlug` by the single pass
`for i, entry := range AllEntries { entryIndexBySlug[entry.Slug] = i }`,
so a later entry with a duplicated slug overwrites the earlier position.
`slugIndexFrom i entries` is the resulting map when the first entry of
`entries` sits at position `i`: positions coming from the tail of the list
take priority over the head, which is exactly last-write-wins. -/

/-- The slug-to-position map produced by indexing `entries` starting at
position `i`, with later (larger-position) occurrences overwriting earlier
ones. -/
def slugIndexFrom : Nat → List Entry → String → Option Nat
  | _, [] => fun _ => none
  | i, e :: rest => fun s =>
    match slugIndexFrom (i + 1) rest s with
    | some j => some j
    | none => if s = e.Slug then some i else none

/-- The global `entryIndexBySlug` map, as a function of the loaded entry
sequence. -/
def entryIndexBySlug (entries : List Entry) : String → Option Nat :=
  slugIndexFrom 0 entries

/-- First letter of an entry for the letter index: the loader reads
`string(entry.NormalizedTitle[0])` guarded by `len(entry.NormalizedTitle) > 0`. -/
def firstLetter (e : Entry) : Option Char :=
  match e.NormalizedTitle.data with
  | [] => none
  | c :: _ => some c

/-- The global `DictionaryLetters` sequence: the distinct first letters of the
non-empty normalized titles (the key set of the Go `letterMap`), materialized
as a sorted list by `slices.Sorted(maps.Keys(letterMap))`. -/
def DictionaryLetters (entries : List Entry) : List Char :=
  ((entries.filterMap firstLetter).dedup).insertionSort (· ≤ ·)

/-! ### Entry lookup and navigation (`internal/core/data.go`) -/

/-- Renders the HTML for a dictionary entry (`RenderEntry`). -/
def RenderEntry (e : Entry) : String :=
  "<h2>" ++ e.DisplayTitle ++ "</h2><div>" ++ e.Content ++ "</div>"

/-- Composition of the index lookup with entry-sequence indexing, as performed
by `RenderEntryBySlug`: `i, ok := entryIndexBySlug[slug]` followed by
`AllEntries[i]`. -/
def entryBySlug (entries : List Entry) (slug : String) : Option Entry :=
  (entryIndexBySlug entries slug).bind fun i => entries[i]?

/-- Renders the HTML for a specific entry slug (`RenderEntryBySlug`); the
boolean "found" result of the Go function is the `Option`. -/
def RenderEntryBySlug (entries : List Entry) (slug : String) : Option String :=
  (entryBySlug entries slug).map RenderEntry

/-- The slug stored at position `i` of the entry sequence (Go `AllEntries[i].Slug`;
the call sites below only ever index in bounds, so the `""` fallback is inert). -/
def slugAt (entries : List Entry) (i : Nat) : String :=
  ((entries[i]?).map Entry.Slug).getD ""

/-- Previous and next entry slugs for a given entry slug
(`GetAdjacentEntrySlugs`): empty strings at the beginning/end of the list,
and `("", "")` when the slug is not in the index. -/
def GetAdjacentEntrySlugs (entries : List Entry) (slug : String) : String × String :=
  match entryIndexBySlug entries slug with
  | none => ("", "")
  | some i =>
    (if 0 < i then slugAt entries (i - 1) else "",
     if i < entries.length - 1 then slugAt entries (i + 1) else "")

/-- Position of the first occurrence of `x` in a list, counting from `i`
(Go `slices.Index`, which returns `-1` — here `none` — when absent). -/
def sliceIndexFrom : Nat → List Char → Char → Option Nat
  | _, [] => fun _ => none
  | i, c :: rest => fun x => if x = c then some i else sliceIndexFrom (i + 1) rest x

/-- Previous and next letters in the sorted letter sequence
(`GetNavigationLetters`): `none` (the empty Go string) at the ends of the
alphabet, and `(none, none)` when the letter is absent. -/
def GetNavigationLetters (letters : List Char) (letter : Char) : Option Char × Option Char :=
  match sliceIndexFrom 0 letters letter with
  | none => (none, none)
  | some i =>
    (if 0 < i then letters[i - 1]? else none,
     if i < letters.length - 1 then letters[i + 1]? else none)

/-- The linear collection loop of `GetEntriesByFirstLetter`: keep every entry
whose normalized title is non-empty and starts with `c`, projected to
slug + display title, in input order. -/
def collectByFirstLetter (c : Char) : List Entry → List LetterEntry
  | [] => []
  | e :: rest =>
    match e.NormalizedTitle.data with
    | [] => collectByFirstLetter c rest
    | c0 :: _ =>
      if c0 = c then { Slug := e.Slug, DisplayTitle := e.DisplayTitle } :: collectByFirstLetter c rest
      else collectByFirstLetter c rest

/-- The collection loop of `GetEntriesByFirstLetter` as written in Go: the
access `letter[0]` sits on the right of the short-circuit guard
`len(entry.NormalizedTitle) > 0 && ...`, so it is evaluated only upon
reaching an entry with a non-empty normalized title; at that point an empty
`letter` panics, modelled by `none`. -/
def collectByFirstLetterGo (letter : List Char) : List Entry → Option (List LetterEntry)
  | [] => some []
  | e :: rest =>
    match e.NormalizedTitle.data with
    | [] => collectByFirstLetterGo letter rest
    | c0 :: _ =>
      match letter with
      | [] => none
      | c :: _ =>
        if c0 = c then
          (collectByFirstLetterGo letter rest).map
            (fun l => { Slug := e.Slug, DisplayTitle := e.DisplayTitle } :: l)
        else collectByFirstLetterGo letter rest

/-- Entry data for lemmas starting with the given letter
(`GetEntriesByFirstLetter`).  A panic of the loop — the empty `letter`
reaching an entry with a non-empty normalized title — is `none`; in every
other case the collected list is returned. -/
def GetEntriesByFirstLetter (entries : List Entry) (letter : String) :
    Option (List LetterEntry) :=
  collectByFirstLetterGo letter.data entries

/-! ### View-model assembly (`internal/core/data.go`) -/

/-- Byte-lexicographic comparison of Go strings, character by character (for
well-formed UTF-8, byte order and code-point order agree, so this is the
order `slices.Sorted` uses on glossary keys). -/
def charListLe : List Char → List Char → Bool
  | [], _ => true
  | _ :: _, [] => false
  | a :: as, b :: bs => if a < b then true else if b < a then false else charListLe as bs

/-- Order on Go strings induced by `charListLe`. -/
def strLe (a b : String) : Prop := charListLe a.data b.data = true

instance : DecidableRel strLe := fun a b => by
  unfold strLe
  infer_instance

/-- The sorted key sequence of the glossary mapping
(`slices.Sorted(maps.Keys(Glossary))`). -/
def sortedGlossaryKeys (glossary : List (String × String)) : List String :=
  (glossary.map Prod.fst).insertionSort strLe

/-- View model for a static page (`CreateStaticPageData`), special-cased for
the glossary page.  The global `Glossary` map is passed explicitly. -/
def CreateStaticPageData (glossary : List (String × String)) (path title : String) :
    PageData :=
  let data : PageData := { PlainTextTitle := title, PageType := path }
  if path = "glossari" then
    { data with
        GlossaryLetters := sortedGlossaryKeys glossary
        GlossaryContent := glossary }
  else data

/-- The effect of `strings.ReplaceAll(slug, "_", " ")`: the pattern is the
single character `_`, so its occurrences are exactly the underscore
characters and the replacement acts character-wise. -/
def replaceUnderscores (s : String) : String :=
  ⟨s.data.map fun c => if c = '_' then ' ' else c⟩

/-- View model for an entry page (`CreateEntryPageData`): the plain-text title
is the slug with underscores replaced by spaces. -/
def CreateEntryPageData (slug entryHTML prevSlug nextSlug : String) : PageData :=
  { PlainTextTitle := replaceUnderscores slug
    PageType := "entry"
    ContentHTML := entryHTML
    PrevSlug := prevSlug
    NextSlug := nextSlug }

/-- View model for the homepage (`CreateHomePageData`). -/
def CreateHomePageData (letters : List Char) : PageData :=
  { PlainTextTitle := "Diccionari de recursos lexicals"
    PageType := "home"
    Letters := letters }

/-- View model for a letter browsing page (`CreateLetterPageData`). -/
def CreateLetterPageData (letter : Char) (entries : List LetterEntry)
    (prevLetter nextLetter : Option Char) : PageData :=
  { PlainTextTitle := "Paraules que comencen per " ++ String.singleton letter
    PageType := "letter"
    Letter := some letter
    Entries := entries
    PrevLetter := prevLetter
    NextLetter := nextLetter }

/-- View model for a semantic field page (`CreateSemanticFieldPageData`). -/
def CreateSemanticFieldPageData (title body : String) : PageData :=
  { PlainTextTitle := title
    PageType := "semantic-field"
    ContentHTML := body }

/-- View model for the 404 page (`Create404PageData`). -/
def Create404PageData : PageData :=
  { PlainTextTitle := "No s'ha trobat"
    PageType := "404" }

/-! ### Dataset loading (`LoadDataFromFile` in `internal/core/data.go`)

`LoadDataFromFile` opens the data file, wraps it in a gzip reader, and decodes
the stream with `encoding/json` into an anonymous struct with fields
`entries`, `semantic_fields` and `glossary`.  The file system, gzip and JSON
scanning layers are external libraries, modelled abstractly by which stage of
the pipeline (if any) fails; a readable, well-compressed, syntactically valid
file is represented by its JSON document.  The decoding into the struct
follows Go `encoding/json` unmarshalling semantics: unknown object keys are
ignored, missing keys keep the zero value, `null` leaves the target
unchanged, and a value of the wrong shape for its target type is an error. -/

/-- A JSON document. -/
inductive Json where
  | null
  | bool (b : Bool)
  | num (n : Int)
  | str (s : String)
  | arr (elems : List Json)
  | obj (fields : List (String × Json))

/-- Decodes a JSON value into a string target whose current value is `cur`
(Go: a string is accepted, `null` is a no-op, anything else is a type error). -/
def decodeStringField (cur : String) : Json → Except String String
  | .str s => .ok s
  | .null => .ok cur
  | _ => .error "cannot unmarshal JSON value into string"

/-- The zero value of `Entry`. -/
def zeroEntry : Entry := ⟨"", "", "", ""⟩

/-- Folds the fields of a JSON object into an `Entry`, starting from `e`:
declared keys are `title`, `title_display`, `title_normalized`, `content`;
unknown keys are ignored; a type mismatch on a declared key is fatal. -/
def decodeEntryFields : Entry → List (String × Json) → Except String Entry
  | e, [] => .ok e
  | e, (k, v) :: rest =>
    if k = "title" then
      match decodeStringField e.Slug v with
      | .error msg => .error msg
      | .ok s => decodeEntryFields { e with Slug := s } rest
    else if k = "title_display" then
      match decodeStringField e.DisplayTitle v with
      | .error msg => .error msg
      | .ok s => decodeEntryFields { e with DisplayTitle := s } rest
    else if k = "title_normalized" then
      match decodeStringField e.NormalizedTitle v with
      | .error msg => .error msg
      | .ok s => decodeEntryFields { e with NormalizedTitle := s } rest
    else if k = "content" then
      match decodeStringField e.Content v with
      | .error msg => .error msg
      | .ok s => decodeEntryFields { e with Content := s } rest
    else decodeEntryFields e rest

/-- Decodes a JSON value into an `Entry`. -/
def decodeEntry : Json → Except String Entry
  | .null => .ok zeroEntry
  | .obj kvs => decodeEntryFields zeroEntry kvs
  | _ => .error "cannot unmarshal JSON value into Entry"

/-- Decodes the elements of a JSON array into entries, failing on the first
element of the wrong shape. -/
def decodeEntryList : List Json → Except String (List Entry)
  | [] => .ok []
  | v :: rest =>
    match decodeEntry v with
    | .error msg => .error msg
    | .ok e =>
      match decodeEntryList rest with
      | .error msg => .error msg
      | .ok es => .ok (e :: es)

/-- Decodes a JSON value into the `entries` slice (`null` yields the nil
slice, an array decodes element-wise, anything else is a type error). -/
def decodeEntries : Json → Except String (List Entry)
  | .null => .ok []
  | .arr xs => decodeEntryList xs
  | _ => .error "cannot unmarshal JSON value into entry slice"

/-- The zero value of `SemanticField`. -/
def zeroSemanticField : SemanticField := ⟨"", "", ""⟩

/-- Folds the fields of a JSON object into a `SemanticField` (declared keys
`title`, `body`, `path`). -/
def decodeSemanticFieldFields :
    SemanticField → List (String × Json) → Except String SemanticField
  | f, [] => .ok f
  | f, (k, v) :: rest =>
    if k = "title" then
      match decodeStringField f.Title v with
      | .error msg => .error msg
      | .ok s => decodeSemanticFieldFields { f with Title := s } rest
    else if k = "body" then
      match decodeStringField f.Body v with
      | .error msg => .error msg
      | .ok s => decodeSemanticFieldFields { f with Body := s } rest
    else if k = "path" then
      match decodeStringField f.Path v with
      | .error msg => .error msg
      | .ok s => decodeSemanticFieldFields { f with Path := s } rest
    else decodeSemanticFieldFields f rest

/-- Decodes a JSON value into a `SemanticField`. -/
def decodeSemanticField : Json → Except String SemanticField
  | .null => .ok zeroSemanticField
  | .obj kvs => decodeSemanticFieldFields zeroSemanticField kvs
  | _ => .error "cannot unmarshal JSON value into SemanticField"

/-- Decodes the elements of a JSON array into semantic fields. -/
def decodeSemanticFieldList : List Json → Except String (List SemanticField)
  | [] => .ok []
  | v :: rest =>
    match decodeSemanticField v with
    | .error msg => .error msg
    | .ok f =>
      match decodeSemanticFieldList rest with
      | .error msg => .error msg
      | .ok fs => .ok (f :: fs)

/-- Decodes a JSON value into the `semantic_fields` slice. -/
def decodeSemanticFields : Json → Except String (List SemanticField)
  | .null => .ok []
  | .arr xs => decodeSemanticFieldList xs
  | _ => .error "cannot unmarshal JSON value into semantic field slice"

/-- Decodes the pairs of a JSON object into the glossary mapping: every value
must be a string (or `null`, giving the zero string). -/
def decodeGlossaryPairs : List (String × Json) → Except String (List (String × String))
  | [] => .ok []
  | (k, v) :: rest =>
    match decodeStringField "" v with
    | .error msg => .error msg
    | .ok s =>
      match decodeGlossaryPairs rest with
      | .error msg => .error msg
      | .ok ps => .ok ((k, s) :: ps)

/-- Decodes a JSON value into the `glossary` letter-to-HTML mapping. -/
def decodeGlossary : Json → Except String (List (String × String))
  | .null => .ok []
  | .obj kvs => decodeGlossaryPairs kvs
  | _ => .error "cannot unmarshal JSON value into glossary map"

/-- The decoded top-level payload of the data file (the anonymous struct of
`LoadDataFromFile`). -/
structure DataPayload where
  entries : List Entry
  semanticFields : List SemanticField
  glossary : List (String × String)
deriving DecidableEq

/-- The zero value of the payload struct. -/
def zeroPayload : DataPayload := ⟨[], [], []⟩

/-- Folds the top-level JSON object fields into the payload struct (declared
keys `entries`, `semantic_fields`, `glossary`; unknown keys ignored). -/
def decodeDataFields : DataPayload → List (String × Json) → Except String DataPayload
  | d, [] => .ok d
  | d, (k, v) :: rest =>
    if k = "entries" then
      match decodeEntries v with
      | .error msg => .error msg
      | .ok es => decodeDataFields { d with entries := es } rest
    else if k = "semantic_fields" then
      match decodeSemanticFields v with
      | .error msg => .error msg
      | .ok fs => decodeDataFields { d with semanticFields := fs } rest
    else if k = "glossary" then
      match decodeGlossary v with
      | .error msg => .error msg
      | .ok g => decodeDataFields { d with glossary := g } rest
    else decodeDataFields d rest

/-- Decodes the top-level JSON document into the payload struct. -/
def decodeData : Json → Except String DataPayload
  | .null => .ok zeroPayload
  | .obj kvs => decodeDataFields zeroPayload kvs
  | _ => .error "cannot unmarshal JSON value into data struct"

/-- Abstract outcome of reading and decompressing the data file: the file may
fail to open, the gzip layer may fail, the decompressed bytes may not be
valid JSON, or they scan to a JSON document. -/
inductive DataFile where
  | unreadable
  | badGzip
  | notJson
  | json (v : Json)

/-- The collections published by a successful load: the entry, semantic-field
and glossary collections together with the derived slug index and sorted
letter sequence. -/
structure Catalog where
  AllEntries : List Entry
  SemanticFields : List SemanticField
  Glossary : List (String × String)
  entryIndex : String → Option Nat
  DictionaryLetters : List Char

/-- Builds the published global state from a decoded payload: the collections
are stored as decoded, and the slug index and letter sequence are constructed
in the same pass. -/
def buildCatalog (d : DataPayload) : Catalog :=
  { AllEntries := d.entries
    SemanticFields := d.semanticFields
    Glossary := d.glossary
    entryIndex := entryIndexBySlug d.entries
    DictionaryLetters := DictionaryLetters d.entries }

/-- Models `LoadDataFromFile`: each stage failure produces an error; a decoded
document is unmarshalled and, on success, the collections and derived indexes
are published. -/
def LoadDataFromFile : DataFile → Except String Catalog
  | .unreadable => .error "failed to open data file"
  | .badGzip => .error "failed to create gzip reader"
  | .notJson => .error "failed to decode JSON"
  | .json v =>
    match decodeData v with
    | .error msg => .error ("failed to decode JSON: " ++ msg)
    | .ok d => .ok (buildCatalog d)

/-! ### Characterization of the slug-to-position index -/

/-- Shifting the starting position of the index pass shifts every stored
position. -/
theorem slugIndexFrom_shift (entries : List Entry) (s : String) :
    ∀ k, slugIndexFrom (k + 1) entries s = (slugIndexFrom k entries s).map (· + 1) := by
  induction entries with
  | nil => intro k; rfl
  | cons e rest ih =>
    intro k
    simp only [slugIndexFrom]
    rw [ih (k + 1)]
    cases h : slugIndexFrom (k + 1) rest s with
    | none =>
      simp only [Option.map_none']
      by_cases hs : s = e.Slug <;> simp [hs]
    | some j => simp

/-- Unfolding lemma for the index over a cons cell: the tail is indexed from
position 1 and takes priority, the head claims position 0 otherwise. -/
theorem entryIndexBySlug_cons (e : Entry) (rest : List Entry) (s : String) :
    entryIndexBySlug (e :: rest) s =
      match entryIndexBySlug rest s with
      | some j => some (j + 1)
      | none => if s = e.Slug then some 0 else none := by
  unfold entryIndexBySlug
  simp only [slugIndexFrom]
  rw [show (0 : Nat) + 1 = 0 + 1 from rfl, slugIndexFrom_shift rest s 0]
  cases h : slugIndexFrom 0 rest s <;> simp

/-- The index has no binding for `s` exactly when no entry carries slug `s`. -/
theorem entryIndexBySlug_eq_none_iff (entries : List Entry) (s : String) :
    entryIndexBySlug entries s = none ↔ ∀ e ∈ entries, e.Slug ≠ s := by
  induction entries with
  | nil => simp [entryIndexBySlug, slugIndexFrom]
  | cons e rest ih =>
    rw [entryIndexBySlug_cons]
    cases h : entryIndexBySlug rest s with
    | some j =>
      simp only [h]
      constructor
      · intro hc; exact absurd hc (by simp)
      · intro hall
        exact absurd (ih.mpr fun x hx => hall x (List.mem_cons_of_mem _ hx)) (by simp [h])
    | none =>
      simp only [h]
      by_cases hs : s = e.Slug
      · subst hs
        rw [if_pos rfl]
        constructor
        · intro hc; exact absurd hc (by simp)
        · intro hall; exact absurd rfl (hall e (List.mem_cons_self e rest))
      · rw [if_neg hs]
        constructor
        · intro _ x hx
          rcases List.mem_cons.mp hx with rfl | hx2
          · exact fun he => hs he.symm
          · exact ih.mp h x hx2
        · intro _; rfl

/-- A stored position is in bounds and points at an entry carrying the looked
up slug. -/
theorem entryIndexBySlug_some {entries : List Entry} {s : String} {i : Nat}
    (h : entryIndexBySlug entries s = some i) :
    ∃ e, entries[i]? = some e ∧ e.Slug = s := by
  induction entries generalizing i with
  | nil => simp [entryIndexBySlug, slugIndexFrom] at h
  | cons e rest ih =>
    rw [entryIndexBySlug_cons] at h
    cases hr : entryIndexBySlug rest s with
    | some j =>
      rw [hr] at h
      simp only [Option.some.injEq] at h
      subst h
      obtain ⟨e2, he2, hs2⟩ := ih hr
      exact ⟨e2, by simpa using he2, hs2⟩
    | none =>
      rw [hr] at h
      by_cases hs : s = e.Slug
      · rw [if_pos hs] at h
        simp only [Option.some.injEq] at h
        subst h
        exact ⟨e, by simp, hs.symm⟩
      · rw [if_neg hs] at h; cases h

/-- The index stores the position of the last occurrence of a slug: if
position `j` carries slug `s` and no later position does, the index maps `s`
to `j`. -/
theorem entryIndexBySlug_last {entries : List Entry} {s : String} {j : Nat} {e : Entry}
    (hj : entries[j]? = some e) (hs : e.Slug = s)
    (hlast : ∀ k e2, j < k → entries[k]? = some e2 → e2.Slug ≠ s) :
    entryIndexBySlug entries s = some j := by
  induction entries generalizing j with
  | nil => simp at hj
  | cons a rest ih =>
    rw [entryIndexBySlug_cons]
    cases j with
    | zero =>
      have ha : a = e := by simpa using hj
      have hnone : entryIndexBySlug rest s = none := by
        rw [entryIndexBySlug_eq_none_iff]
        intro x hx
        obtain ⟨k, hk⟩ := List.mem_iff_getElem?.mp hx
        exact hlast (k + 1) x (Nat.succ_pos k) (by simpa using hk)
      rw [hnone]
      subst ha
      rw [if_pos hs.symm]
    | succ n =>
      have hj2 : rest[n]? = some e := by simpa using hj
      have hlast2 : ∀ k e2, n < k → rest[k]? = some e2 → e2.Slug ≠ s := by
        intro k e2 hk hke2
        exact hlast (k + 1) e2 (Nat.succ_lt_succ hk) (by simpa using hke2)
      rw [ih hj2 hlast2]

/-- When slugs are unique, the index maps every entry's slug to exactly the
entry's position. -/
theorem entryIndexBySlug_of_nodup {entries : List Entry}
    (hnd : (entries.map Entry.Slug).Nodup) {i : Nat} {e : Entry}
    (hi : entries[i]? = some e) :
    entryIndexBySlug entries e.Slug = some i := by
  apply entryIndexBySlug_last hi rfl
  intro k e2 hlt hk heq
  obtain ⟨hil, hie⟩ := List.getElem?_eq_some.mp hi
  obtain ⟨hkl, hke⟩ := List.getElem?_eq_some.mp hk
  have hil2 : i < (entries.map Entry.Slug).length := by simpa using hil
  have hkl2 : k < (entries.map Entry.Slug).length := by simpa using hkl
  have hmap : (entries.map Entry.Slug).get ⟨i, hil2⟩ =
      (entries.map Entry.Slug).get ⟨k, hkl2⟩ := by
    simp only [List.get_eq_getElem, List.getElem_map, hie, hke, heq]
  simp only [List.get_eq_getElem] at hmap
  have := hnd.getElem_inj_iff.mp hmap
  omega

/-! ### Characterization of `slices.Index` on the letter sequence -/

/-- Shifting the starting position of the scan shifts the reported position. -/
theorem sliceIndexFrom_shift (l : List Char) (x : Char) :
    ∀ k, sliceIndexFrom (k + 1) l x = (sliceIndexFrom k l x).map (· + 1) := by
  induction l with
  | nil => intro k; rfl
  | cons c rest ih =>
    intro k
    simp only [sliceIndexFrom]
    by_cases h : x = c
    · simp [h]
    · simp only [if_neg h]
      exact ih (k + 1)

/-- Unfolding lemma for the scan over a cons cell. -/
theorem sliceIndexFrom_cons (c : Char) (rest : List Char) (x : Char) :
    sliceIndexFrom 0 (c :: rest) x =
      if x = c then some 0 else (sliceIndexFrom 0 rest x).map (· + 1) := by
  simp only [sliceIndexFrom]
  by_cases h : x = c
  · simp [h]
  · simp only [if_neg h]
    exact sliceIndexFrom_shift rest x 0

/-- The scan reports no position exactly when the letter is absent. -/
theorem sliceIndexFrom_eq_none_iff (l : List Char) (x : Char) :
    sliceIndexFrom 0 l x = none ↔ x ∉ l := by
  induction l with
  | nil => simp [sliceIndexFrom]
  | cons c rest ih =>
    rw [sliceIndexFrom_cons]
    by_cases h : x = c
    · simp [h]
    · cases hr : sliceIndexFrom 0 rest x <;> simp [h, hr, ← ih, hr]

/-- On a duplicate-free list the scan reports exactly the position of the
element. -/
theorem sliceIndexFrom_of_nodup {l : List Char} (hnd : l.Nodup) {j : Nat} {x : Char}
    (hj : l[j]? = some x) : sliceIndexFrom 0 l x = some j := by
  induction l generalizing j with
  | nil => simp at hj
  | cons c rest ih =>
    rw [sliceIndexFrom_cons]
    cases j with
    | zero =>
      have : c = x := by simpa using hj
      rw [if_pos this.symm]
    | succ n =>
      have hj2 : rest[n]? = some x := by simpa using hj
      have hxrest : x ∈ rest := List.mem_iff_getElem?.mpr ⟨n, hj2⟩
      have hxc : x ≠ c := by
        intro he; subst he
        exact (List.nodup_cons.mp hnd).1 hxrest
      rw [if_neg hxc, ih (List.nodup_cons.mp hnd).2 hj2]
      simp

/-! ### The byte-lexicographic string order is total and transitive -/

/-- Totality of the character-list comparison. -/
theorem charListLe_total : ∀ as bs : List Char, charListLe as bs = true ∨ charListLe bs as = true
  | [], _ => Or.inl rfl
  | _ :: _, [] => Or.inr rfl
  | a :: as, b :: bs => by
    rcases lt_trichotomy a b with h | h | h
    · left; simp [charListLe, h]
    · subst h
      rcases charListLe_total as bs with h2 | h2
      · left; simp [charListLe, h2]
      · right; simp [charListLe, h2]
    · right; simp [charListLe, h]

/-- Transitivity of the character-list comparison. -/
theorem charListLe_trans :
    ∀ as bs cs : List Char,
      charListLe as bs = true → charListLe bs cs = true → charListLe as cs = true
  | [], _, _ => fun _ _ => rfl
  | _ :: _, [], _ => fun hab _ => by simp [charListLe] at hab
  | _ :: _, _ :: _, [] => fun _ hbc => by simp [charListLe] at hbc
  | a :: as, b :: bs, c :: cs => by
    intro hab hbc
    rcases lt_trichotomy a b with h1 | h1 | h1
    · rcases lt_trichotomy b c with h2 | h2 | h2
      · simp [charListLe, lt_trans h1 h2]
      · subst h2; simp [charListLe, h1]
      · simp [charListLe, h2, not_lt.mpr (le_of_lt h2)] at hbc
    · subst h1
      rcases lt_trichotomy a c with h2 | h2 | h2
      · simp [charListLe, h2]
      · subst h2
        simp only [charListLe, lt_irrefl, if_false] at hab hbc ⊢
        exact charListLe_trans as bs cs hab hbc
      · simp [charListLe, h2, not_lt.mpr (le_of_lt h2)] at hbc
    · simp [charListLe, h1, not_lt.mpr (le_of_lt h1)] at hab

instance : IsTotal String strLe :=
  ⟨fun a b => charListLe_total a.data b.data⟩

instance : IsTrans String strLe :=
  ⟨fun a b c => charListLe_trans a.data b.data c.data⟩

/-! ### Letter sequence and letter collection helpers -/

/-- A Go string is empty exactly when its character list is. -/
theorem string_eq_empty_iff (s : String) : s = "" ↔ s.data = [] := by
  constructor
  · intro h; subst h; rfl
  · intro h
    cases s
    simp at h
    simp [h]

/-- The guarded first-letter extraction succeeds exactly on entries with a
non-empty normalized title, returning its first character. -/
theorem firstLetter_eq_some_iff (e : Entry) (c : Char) :
    firstLetter e = some c ↔
      e.NormalizedTitle ≠ "" ∧ e.NormalizedTitle.data.head? = some c := by
  unfold firstLetter
  cases hd : e.NormalizedTitle.data with
  | nil => simp [string_eq_empty_iff, hd]
  | cons c0 tl =>
    have : e.NormalizedTitle ≠ "" := by
      rw [Ne, string_eq_empty_iff, hd]; simp
    simp [this]

/-- The letter sequence is sorted for the (non-strict) character order. -/
theorem dictionaryLetters_sorted_le (entries : List Entry) :
    (DictionaryLetters entries).Sorted (· ≤ ·) :=
  List.sorted_insertionSort (· ≤ ·) _

/-- The letter sequence has no duplicates. -/
theorem dictionaryLetters_nodup (entries : List Entry) :
    (DictionaryLetters entries).Nodup :=
  (List.perm_insertionSort (· ≤ ·) _).symm.nodup (List.nodup_dedup _)

/-- Membership in the letter sequence is exactly being the first character of
some non-empty normalized title. -/
theorem mem_dictionaryLetters (entries : List Entry) (c : Char) :
    c ∈ DictionaryLetters entries ↔
      ∃ e ∈ entries, e.NormalizedTitle ≠ "" ∧ e.NormalizedTitle.data.head? = some c := by
  unfold DictionaryLetters
  rw [(List.perm_insertionSort (· ≤ ·) _).mem_iff, List.mem_dedup, List.mem_filterMap]
  constructor
  · rintro ⟨e, he, hfl⟩
    exact ⟨e, he, (firstLetter_eq_some_iff e c).mp hfl⟩
  · rintro ⟨e, he, h1, h2⟩
    exact ⟨e, he, (firstLetter_eq_some_iff e c).mpr ⟨h1, h2⟩⟩

/-- The collection loop of `GetEntriesByFirstLetter` is the order-preserving
filter of the entries whose normalized title starts with the letter, projected
to slug and display title. -/
theorem collectByFirstLetter_eq (c : Char) (entries : List Entry) :
    collectByFirstLetter c entries =
      (entries.filter fun e => decide (e.NormalizedTitle.data.head? = some c)).map
        fun e => { Slug := e.Slug, DisplayTitle := e.DisplayTitle } := by
  induction entries with
  | nil => rfl
  | cons e rest ih =>
    cases hd : e.NormalizedTitle.data with
    | nil => simp [collectByFirstLetter, hd, ih]
    | cons c0 tl =>
      by_cases h : c0 = c <;> simp [collectByFirstLetter, hd, h, ih]

/-- With a non-empty letter the guarded access never fails, and the Go loop
collects exactly what the simple projection loop collects. -/
theorem collectByFirstLetterGo_eq_some (c : Char) (tl : List Char) :
    ∀ entries, collectByFirstLetterGo (c :: tl) entries =
      some (collectByFirstLetter c entries) := by
  intro entries
  induction entries with
  | nil => rfl
  | cons e rest ih =>
    cases hd : e.NormalizedTitle.data with
    | nil => simp [collectByFirstLetterGo, collectByFirstLetter, hd, ih]
    | cons c0 tl0 =>
      by_cases h : c0 = c <;>
        simp [collectByFirstLetterGo, collectByFirstLetter, hd, h, ih]

/-- With the empty letter the Go loop panics exactly upon reaching an entry
with a non-empty normalized title. -/
theorem collectByFirstLetterGo_nil_eq_none :
    ∀ entries : List Entry, (∃ e ∈ entries, e.NormalizedTitle ≠ "") →
      collectByFirstLetterGo [] entries = none := by
  intro entries
  induction entries with
  | nil => rintro ⟨e, he, -⟩; cases he
  | cons e rest ih =>
    rintro ⟨x, hx, hxne⟩
    cases hd : e.NormalizedTitle.data with
    | cons c0 tl0 => simp [collectByFirstLetterGo, hd]
    | nil =>
      have hrest : ∃ y ∈ rest, y.NormalizedTitle ≠ "" := by
        rcases List.mem_cons.mp hx with rfl | hmem
        · exact absurd ((string_eq_empty_iff _).mpr hd) hxne
        · exact ⟨x, hmem, hxne⟩
      simp [collectByFirstLetterGo, hd, ih hrest]

/-- With the empty letter over a collection of empty normalized titles the
guard never lets the out-of-range access happen, and the loop returns the
empty result. -/
theorem collectByFirstLetterGo_nil_eq_some :
    ∀ entries : List Entry, (∀ e ∈ entries, e.NormalizedTitle = "") →
      collectByFirstLetterGo [] entries = some [] := by
  intro entries
  induction entries with
  | nil => intro _; rfl
  | cons e rest ih =>
    intro h
    have hd : e.NormalizedTitle.data = [] :=
      (string_eq_empty_iff e.NormalizedTitle).mp (h e (List.mem_cons_self _ _))
    simp [collectByFirstLetterGo, hd, ih fun y hy => h y (List.mem_cons_of_mem _ hy)]

/-! ### Loader lemmas -/

/-- An object all of whose keys are undeclared decodes to the unchanged
payload: unknown keys are skipped. -/
theorem decodeDataFields_unknown (d : DataPayload) :
    ∀ kvs : List (String × Json),
      (∀ p ∈ kvs, p.1 ≠ "entries" ∧ p.1 ≠ "semantic_fields" ∧ p.1 ≠ "glossary") →
      decodeDataFields d kvs = .ok d := by
  intro kvs
  induction kvs generalizing d with
  | nil => intro _; rfl
  | cons p rest ih =>
    intro h
    obtain ⟨k, v⟩ := p
    obtain ⟨h1, h2, h3⟩ := h (k, v) (List.mem_cons_self _ _)
    simp only [decodeDataFields, if_neg h1, if_neg h2, if_neg h3]
    exact ih d fun q hq => h q (List.mem_cons_of_mem _ hq)

/-- A declared key whose value has the wrong shape is fatal: an `entries` key
carrying a number makes the whole decode fail. -/
theorem decodeDataFields_entries_mismatch (n : Int) :
    ∀ (kvs : List (String × Json)) (d : DataPayload),
      ("entries", Json.num n) ∈ kvs →
      ∃ msg, decodeDataFields d kvs = .error msg := by
  intro kvs
  induction kvs with
  | nil => intro d h; cases h
  | cons p rest ih =>
    intro d h
    obtain ⟨k, v⟩ := p
    simp only [decodeDataFields]
    by_cases h1 : k = "entries"
    · rw [if_pos h1]
      cases hv : decodeEntries v with
      | error msg => exact ⟨msg, rfl⟩
      | ok es =>
        rcases List.mem_cons.mp h with heq | hmem
        · exfalso
          have hv2 : v = Json.num n := congrArg Prod.snd heq.symm
          rw [hv2] at hv
          simp [decodeEntries] at hv
        · exact ih _ hmem
    · rw [if_neg h1]
      have hmem : ("entries", Json.num n) ∈ rest := by
        rcases List.mem_cons.mp h with heq | hmem
        · exact absurd (congrArg Prod.fst heq.symm) h1
        · exact hmem
      by_cases h2 : k = "semantic_fields"
      · rw [if_pos h2]
        cases hv : decodeSemanticFields v with
        | error msg => exact ⟨msg, rfl⟩
        | ok fs => exact ih _ hmem
      · rw [if_neg h2]
        by_cases h3 : k = "glossary"
        · rw [if_pos h3]
          cases hv : decodeGlossary v with
          | error msg => exact ⟨msg, rfl⟩
          | ok g => exact ih _ hmem
        · rw [if_neg h3]
          exact ih _ hmem

/-! ### Sample data used to instantiate the theorems -/

/-- Sample entry with slug `a`. -/
def entA : Entry := ⟨"a", "A", "a", "ca"⟩

/-- Sample entry with slug `b`. -/
def entB : Entry := ⟨"b", "B", "b", "cb"⟩

/-- Sample entry with slug `c`. -/
def entC : Entry := ⟨"c", "C", "c", "cc"⟩

/-- A three-entry collection with unique slugs, pre-sorted. -/
def demoEntries : List Entry := [entA, entB, entC]

/-- An entry used to build collections with duplicated slugs. -/
def dupEntry : Entry := ⟨"dup", "D", "d", "x"⟩

/-- The entry of the spec's sample dataset. -/
def sampleEntry : Entry := ⟨"casa", "Casa", "casa", "x"⟩

/-- A sample JSON document: one entry with an extra unknown field, plus an
unknown top-level field; `semantic_fields` and `glossary` are missing. -/
def sampleJson : Json :=
  .obj [("entries", .arr [.obj [("title", .str "casa"), ("title_display", .str "Casa"),
          ("title_normalized", .str "casa"), ("content", .str "x"), ("extra", .num 5)]]),
        ("unknown", .bool true)]

/-- A sample glossary mapping with unsorted keys. -/
def demoGlossary : List (String × String) := [("B", "bee"), ("A", "ay")]

/-! ### Claim theorems -/

/-- C1: for every slug `s`, if `s` is not a key of the slug-to-position index
then `GetAdjacentEntrySlugs` returns `("", "")`; if `s` maps to position `i`
in the entry sequence then it returns the slug at position `i - 1` when
`i > 0` (else `""`) and the slug at position `i + 1` when `i` is not the last
index (else `""`). -/
theorem getAdjacentEntrySlugs_spec (entries : List Entry) (s : String) :
    (entryIndexBySlug entries s = none → GetAdjacentEntrySlugs entries s = ("", "")) ∧
    (∀ i, entryIndexBySlug entries s = some i →
      i < entries.length ∧
      GetAdjacentEntrySlugs entries s =
        ((if 0 < i then slugAt entries (i - 1) else ""),
         (if i + 1 < entries.length then slugAt entries (i + 1) else ""))) := by
  constructor
  · intro h
    simp only [GetAdjacentEntrySlugs, h]
  · intro i h
    obtain ⟨e, he, -⟩ := entryIndexBySlug_some h
    have hi : i < entries.length := (List.getElem?_eq_some.mp he).1
    refine ⟨hi, ?_⟩
    simp only [GetAdjacentEntrySlugs, h]
    by_cases hbig : i + 1 < entries.length
    · rw [if_pos (show i < entries.length - 1 by omega), if_pos hbig]
    · rw [if_neg (show ¬i < entries.length - 1 by omega), if_neg hbig]

/-- Witness for C1: the middle slug of the sample collection has its
neighbours as adjacent slugs, and an absent slug yields `("", "")`. -/
theorem getAdjacentEntrySlugs_spec_witness :
    GetAdjacentEntrySlugs demoEntries "b" = ("a", "c") ∧
    GetAdjacentEntrySlugs demoEntries "__does_not_exist__" = ("", "") := by
  constructor
  · have h := ((getAdjacentEntrySlugs_spec demoEntries "b").2 1 (by decide)).2
    rw [h]; decide
  · exact (getAdjacentEntrySlugs_spec demoEntries "__does_not_exist__").1 (by decide)

/-- C2: after index construction the letters sequence is strictly sorted,
contains no duplicates, and equals as a set the distinct first characters of
the non-empty normalized titles of the entries. -/
theorem dictionaryLetters_spec (entries : List Entry) :
    (DictionaryLetters entries).Sorted (· < ·) ∧
    (DictionaryLetters entries).Nodup ∧
    ∀ c, (c ∈ DictionaryLetters entries ↔
      ∃ e ∈ entries, e.NormalizedTitle ≠ "" ∧ e.NormalizedTitle.data.head? = some c) :=
  ⟨(dictionaryLetters_sorted_le entries).lt_of_le (dictionaryLetters_nodup entries),
   dictionaryLetters_nodup entries,
   fun c => mem_dictionaryLetters entries c⟩

/-- Witness for C2: a collection given out of letter order produces the
sorted duplicate-free letter sequence, and `b` is recognized as the first
letter contributed by the entry with slug `b`. -/
theorem dictionaryLetters_spec_witness :
    'b' ∈ DictionaryLetters [entC, entA, entB, entA] ∧
    (DictionaryLetters [entC, entA, entB, entA]).Sorted (· < ·) ∧
    DictionaryLetters [entC, entA, entB, entA] = ['a', 'b', 'c'] :=
  ⟨((dictionaryLetters_spec [entC, entA, entB, entA]).2.2 'b').mpr
      ⟨entB, by decide, by decide, by decide⟩,
   (dictionaryLetters_spec [entC, entA, entB, entA]).1,
   by decide⟩

/-- C3: when slugs are unique across the collection, looking an entry's slug
up in the slug-to-position index and indexing the entry sequence — as
`RenderEntryBySlug` does — succeeds and returns exactly that entry. -/
theorem entryBySlug_roundtrip (entries : List Entry)
    (hnd : (entries.map Entry.Slug).Nodup) :
    ∀ e ∈ entries, entryBySlug entries e.Slug = some e ∧
      RenderEntryBySlug entries e.Slug = some (RenderEntry e) := by
  intro e he
  obtain ⟨i, hi⟩ := List.mem_iff_getElem?.mp he
  have hidx := entryIndexBySlug_of_nodup hnd hi
  exact ⟨by simp [entryBySlug, hidx, hi],
    by simp [RenderEntryBySlug, entryBySlug, hidx, hi]⟩

/-- Witness for C3 on the sample collection. -/
theorem entryBySlug_roundtrip_witness :
    entryBySlug demoEntries "b" = some entB ∧
    RenderEntryBySlug demoEntries "b" = some "<h2>B</h2><div>cb</div>" := by
  have h := entryBySlug_roundtrip demoEntries (by decide) entB (by decide)
  exact ⟨h.1, h.2.trans (by decide)⟩

/-- C4: for a single lowercase letter, `GetEntriesByFirstLetter` returns
exactly the entries whose normalized title is non-empty and has that first
character, projected to slug and display title, in source order. -/
theorem getEntriesByFirstLetter_spec (entries : List Entry) (c : Char)
    (hlo : 'a' ≤ c) (hhi : c ≤ 'z') :
    GetEntriesByFirstLetter entries (String.singleton c) =
      some ((entries.filter fun e =>
          decide (e.NormalizedTitle ≠ "" ∧ e.NormalizedTitle.data.head? = some c)).map
        fun e => { Slug := e.Slug, DisplayTitle := e.DisplayTitle }) := by
  have hfil : (entries.filter fun e =>
        decide (e.NormalizedTitle ≠ "" ∧ e.NormalizedTitle.data.head? = some c)) =
      entries.filter fun e => decide (e.NormalizedTitle.data.head? = some c) := by
    apply List.filter_congr
    intro e _
    by_cases hb : e.NormalizedTitle.data.head? = some c
    · have ha : e.NormalizedTitle ≠ "" := by
        rw [Ne, string_eq_empty_iff]
        intro h0
        rw [h0] at hb
        simp at hb
      simp [ha, hb]
    · simp [hb]
  have hd : (String.singleton c).data = [c] := rfl
  rw [hfil]
  unfold GetEntriesByFirstLetter
  rw [hd, collectByFirstLetterGo_eq_some c [] entries]
  exact congrArg some (collectByFirstLetter_eq c entries)

/-- Witness for C4 at the letter `b` on the sample collection. -/
theorem getEntriesByFirstLetter_spec_witness :
    GetEntriesByFirstLetter demoEntries (String.singleton 'b') =
      some [{ Slug := "b", DisplayTitle := "B" }] :=
  (getEntriesByFirstLetter_spec demoEntries 'b' (by decide) (by decide)).trans (by decide)

/-- C5: for every letter, if it occurs in the sorted letters sequence at
position `j` then `GetNavigationLetters` returns the letters at positions
`j - 1` and `j + 1` (the empty Go string, modelled `none`, at either end);
if the letter is absent it returns `(none, none)`. -/
theorem getNavigationLetters_spec (entries : List Entry) (l : Char) :
    (l ∉ DictionaryLetters entries →
      GetNavigationLetters (DictionaryLetters entries) l = (none, none)) ∧
    (∀ j, (DictionaryLetters entries)[j]? = some l →
      GetNavigationLetters (DictionaryLetters entries) l =
        ((if 0 < j then (DictionaryLetters entries)[j - 1]? else none),
         (if j + 1 < (DictionaryLetters entries).length then
            (DictionaryLetters entries)[j + 1]? else none))) := by
  constructor
  · intro h
    simp only [GetNavigationLetters, (sliceIndexFrom_eq_none_iff _ _).mpr h]
  · intro j hj
    have hlen : j < (DictionaryLetters entries).length := (List.getElem?_eq_some.mp hj).1
    simp only [GetNavigationLetters,
      sliceIndexFrom_of_nodup (dictionaryLetters_nodup entries) hj]
    by_cases hbig : j + 1 < (DictionaryLetters entries).length
    · rw [if_pos (show j < (DictionaryLetters entries).length - 1 by omega), if_pos hbig]
    · rw [if_neg (show ¬j < (DictionaryLetters entries).length - 1 by omega), if_neg hbig]

/-- Witness for C5: on the sample letter sequence `['a', 'b', 'c']` the
letter `b` at position 1 gets `a` and `c` as navigation neighbours, and an
absent letter gets `(none, none)`. -/
theorem getNavigationLetters_spec_witness :
    GetNavigationLetters (DictionaryLetters demoEntries) 'b' = (some 'a', some 'c') ∧
    GetNavigationLetters (DictionaryLetters demoEntries) 'q' = (none, none) := by
  constructor
  · have h := (getNavigationLetters_spec demoEntries 'b').2 1 (by decide)
    rw [h]; decide
  · exact (getNavigationLetters_spec demoEntries 'q').1 (by decide)

/-- C6: `CreateStaticPageData` always sets the plain-text title to `title`;
for path `"glossari"` it sets the glossary letters to the sorted keys of the
glossary mapping (sorted: a permutation of the keys ordered by the string
order) and the glossary content to the mapping unchanged; for every other
path both fields stay empty. -/
theorem createStaticPageData_spec (glossary : List (String × String)) (path title : String) :
    (CreateStaticPageData glossary path title).PlainTextTitle = title ∧
    (path = "glossari" →
      (CreateStaticPageData glossary path title).GlossaryLetters = sortedGlossaryKeys glossary ∧
      List.Sorted strLe (CreateStaticPageData glossary path title).GlossaryLetters ∧
      ((CreateStaticPageData glossary path title).GlossaryLetters).Perm
        (glossary.map Prod.fst) ∧
      (CreateStaticPageData glossary path title).GlossaryContent = glossary) ∧
    (path ≠ "glossari" →
      (CreateStaticPageData glossary path title).GlossaryLetters = [] ∧
      (CreateStaticPageData glossary path title).GlossaryContent = []) := by
  by_cases h : path = "glossari"
  · subst h
    have hG : (CreateStaticPageData glossary "glossari" title).GlossaryLetters =
        sortedGlossaryKeys glossary := rfl
    refine ⟨rfl, fun _ => ⟨rfl, ?_, ?_, rfl⟩, fun hne => absurd rfl hne⟩
    · rw [hG]; exact List.sorted_insertionSort strLe _
    · rw [hG]; exact List.perm_insertionSort strLe _
  · refine ⟨?_, fun he => absurd he h, fun _ => ⟨?_, ?_⟩⟩ <;>
      simp [CreateStaticPageData, h]

/-- Witness for C6 on a two-letter glossary with unsorted keys. -/
theorem createStaticPageData_spec_witness :
    (CreateStaticPageData demoGlossary "glossari" "Glossari").PlainTextTitle = "Glossari" ∧
    (CreateStaticPageData demoGlossary "glossari" "Glossari").GlossaryLetters = ["A", "B"] ∧
    (CreateStaticPageData demoGlossary "glossari" "Glossari").GlossaryContent = demoGlossary ∧
    (CreateStaticPageData demoGlossary "credits" "Crèdits").GlossaryLetters = [] := by
  have h := createStaticPageData_spec demoGlossary "glossari" "Glossari"
  have h2 := createStaticPageData_spec demoGlossary "credits" "Crèdits"
  exact ⟨h.1, ((h.2.1 rfl).1).trans (by decide), (h.2.1 rfl).2.2.2,
    (h2.2.2 (by decide)).1⟩

/-- C7: `CreateEntryPageData` sets the plain-text title to the slug with
every underscore replaced by a space; in particular the slug
`"adonar-se_(de)"` yields the title `"adonar-se (de)"`. -/
theorem createEntryPageData_title (slug entryHTML prevSlug nextSlug : String) :
    (CreateEntryPageData slug entryHTML prevSlug nextSlug).PlainTextTitle.data =
      slug.data.map (fun c => if c = '_' then ' ' else c) ∧
    (CreateEntryPageData "adonar-se_(de)" entryHTML prevSlug nextSlug).PlainTextTitle =
      "adonar-se (de)" := by
  refine ⟨rfl, ?_⟩
  show replaceUnderscores "adonar-se_(de)" = "adonar-se (de)"
  decide

/-- Witness for C7 at the spec's example slug. -/
theorem createEntryPageData_title_witness :
    (CreateEntryPageData "adonar-se_(de)" "h" "p" "n").PlainTextTitle =
      "adonar-se (de)" :=
  (createEntryPageData_title "x" "h" "p" "n").2

/-- C8 as stated is false: in a collection of three entries all carrying slug
`"dup"`, positions `0 < 1` both carry the slug, yet the index maps `"dup"`
to `2`, not to `1` — an even later duplicate overwrites again. -/
theorem duplicateSlug_pair_counterexample :
    0 < 1 ∧
    ([dupEntry, dupEntry, dupEntry][0]?).map Entry.Slug = some "dup" ∧
    ([dupEntry, dupEntry, dupEntry][1]?).map Entry.Slug = some "dup" ∧
    entryIndexBySlug [dupEntry, dupEntry, dupEntry] "dup" ≠ some 1 := by
  refine ⟨Nat.one_pos, rfl, rfl, ?_⟩
  decide

/-- C8 amended: if two entries at positions `i < j` carry the same slug and
no position after `j` carries it, the single-pass index construction maps
that slug to `j`: the later entry's position silently overwrites the earlier
one's. -/
theorem duplicateSlug_last_wins (entries : List Entry) (s : String) (i j : Nat)
    (ei ej : Entry) (hij : i < j)
    (hi : entries[i]? = some ei) (hj : entries[j]? = some ej)
    (hsi : ei.Slug = s) (hsj : ej.Slug = s)
    (hlast : ∀ k e2, j < k → entries[k]? = some e2 → e2.Slug ≠ s) :
    entryIndexBySlug entries s = some j :=
  entryIndexBySlug_last hj hsj hlast

/-- Witness for the amended C8: with duplicates at positions 0, 1 and 2, the
index maps the slug to the final position 2. -/
theorem duplicateSlug_last_wins_witness :
    entryIndexBySlug [dupEntry, dupEntry, dupEntry] "dup" = some 2 :=
  duplicateSlug_last_wins [dupEntry, dupEntry, dupEntry] "dup" 1 2 dupEntry dupEntry
    (by decide) (by decide) (by decide) (by decide) (by decide)
    (by
      intro k e2 hk hke2
      rw [List.getElem?_eq_none (by simp only [List.length_cons, List.length_nil]; omega)]
        at hke2
      cases hke2)

/-- C9: loading fails when the file cannot be opened, decompression fails or
the JSON does not match the expected schema — keys beyond the declared ones
are ignored and missing keys keep their zero values, while a type mismatch on
a declared key is fatal — and otherwise succeeds, publishing the entries,
semantic fields and glossary collections together with the slug index and the
letters sequence. -/
theorem loadDataFromFile_spec :
    (∃ msg, LoadDataFromFile .unreadable = .error msg) ∧
    (∃ msg, LoadDataFromFile .badGzip = .error msg) ∧
    (∃ msg, LoadDataFromFile .notJson = .error msg) ∧
    (∀ kvs, (∀ p ∈ kvs, p.1 ≠ "entries" ∧ p.1 ≠ "semantic_fields" ∧ p.1 ≠ "glossary") →
      LoadDataFromFile (.json (.obj kvs)) = .ok (buildCatalog zeroPayload)) ∧
    (∀ kvs n, ("entries", Json.num n) ∈ kvs →
      ∃ msg, LoadDataFromFile (.json (.obj kvs)) = .error msg) ∧
    (∀ v d, decodeData v = .ok d →
      LoadDataFromFile (.json v) = .ok (buildCatalog d) ∧
      (buildCatalog d).AllEntries = d.entries ∧
      (buildCatalog d).SemanticFields = d.semanticFields ∧
      (buildCatalog d).Glossary = d.glossary ∧
      (buildCatalog d).entryIndex = entryIndexBySlug d.entries ∧
      (buildCatalog d).DictionaryLetters = DictionaryLetters d.entries) := by
  refine ⟨⟨_, rfl⟩, ⟨_, rfl⟩, ⟨_, rfl⟩, ?_, ?_, ?_⟩
  · intro kvs h
    simp only [LoadDataFromFile, decodeData, decodeDataFields_unknown zeroPayload kvs h]
  · intro kvs n hmem
    obtain ⟨msg, hmsg⟩ := decodeDataFields_entries_mismatch n kvs zeroPayload hmem
    exact ⟨"failed to decode JSON: " ++ msg,
      by simp only [LoadDataFromFile, decodeData, hmsg]⟩
  · intro v d h
    exact ⟨by simp only [LoadDataFromFile, h], rfl, rfl, rfl, rfl, rfl⟩

/-- Witness for C9: the sample document (with an unknown entry field and an
unknown top-level field, `semantic_fields` and `glossary` missing) loads
successfully; an object with only unknown keys loads to the zero payload; an
`entries` field holding a number is a fatal mismatch. -/
theorem loadDataFromFile_spec_witness :
    LoadDataFromFile (.json sampleJson) = .ok (buildCatalog ⟨[sampleEntry], [], []⟩) ∧
    (buildCatalog (⟨[sampleEntry], [], []⟩ : DataPayload)).DictionaryLetters = ['c'] ∧
    LoadDataFromFile (.json (.obj [("bogus", Json.num 3)])) = .ok (buildCatalog zeroPayload) ∧
    ∃ msg, LoadDataFromFile (.json (.obj [("entries", Json.num 3)])) = .error msg := by
  refine ⟨(loadDataFromFile_spec.2.2.2.2.2 sampleJson ⟨[sampleEntry], [], []⟩ rfl).1,
    by decide,
    loadDataFromFile_spec.2.2.2.1 [("bogus", Json.num 3)] ?_,
    loadDataFromFile_spec.2.2.2.2.1 [("entries", Json.num 3)] 3 (List.mem_cons_self _ _)⟩
  intro p hp
  rcases List.mem_cons.mp hp with rfl | hp2
  · exact ⟨by decide, by decide, by decide⟩
  · cases hp2

/-- C10 as stated is false: the access `letter[0]` is short-circuited behind
the per-entry guard `len(entry.NormalizedTitle) > 0`, so the empty string is
not unconditionally outside the domain — over the empty entry collection, and
over a collection whose only normalized title is empty, the call with `""`
succeeds and returns the nil slice without any out-of-range access. -/
theorem getEntriesByFirstLetter_empty_counterexample :
    GetEntriesByFirstLetter [] "" = some [] ∧
    GetEntriesByFirstLetter
      [{ Slug := "s", DisplayTitle := "S", NormalizedTitle := "", Content := "x" }] "" =
      some [] :=
  ⟨rfl, rfl⟩

/-- C10 amended: `GetEntriesByFirstLetter` reads `letter[0]` only behind the
short-circuit guard on each entry's normalized title (which keeps the
`NormalizedTitle[0]` access in bounds): every non-empty argument is answered
and the result depends only on the argument's first character, while the
empty string lies outside the domain exactly when some entry has a non-empty
normalized title — then `letter[0]` is out of range — and otherwise the call
succeeds with the empty result. -/
theorem getEntriesByFirstLetter_guarded (entries : List Entry) :
    (∀ letter : String, letter ≠ "" →
      (GetEntriesByFirstLetter entries letter).isSome = true) ∧
    (∀ l1 l2 : String, l1 ≠ "" → l1.data.head? = l2.data.head? →
      GetEntriesByFirstLetter entries l1 = GetEntriesByFirstLetter entries l2) ∧
    ((∃ e ∈ entries, e.NormalizedTitle ≠ "") →
      GetEntriesByFirstLetter entries "" = none) ∧
    ((∀ e ∈ entries, e.NormalizedTitle = "") →
      GetEntriesByFirstLetter entries "" = some []) := by
  refine ⟨?_, ?_, ?_, ?_⟩
  · intro letter h
    cases hd : letter.data with
    | nil => exact absurd ((string_eq_empty_iff letter).mpr hd) h
    | cons c tl =>
      unfold GetEntriesByFirstLetter
      rw [hd, collectByFirstLetterGo_eq_some]
      rfl
  · intro l1 l2 h1 hhead
    cases hd1 : l1.data with
    | nil => exact absurd ((string_eq_empty_iff l1).mpr hd1) h1
    | cons c tl =>
      cases hd2 : l2.data with
      | nil =>
        rw [hd1, hd2] at hhead
        simp at hhead
      | cons c2 tl2 =>
        rw [hd1, hd2] at hhead
        simp only [List.head?_cons, Option.some.injEq] at hhead
        unfold GetEntriesByFirstLetter
        rw [hd1, hd2, collectByFirstLetterGo_eq_some, collectByFirstLetterGo_eq_some,
          hhead]
  · intro h
    exact collectByFirstLetterGo_nil_eq_none entries h
  · intro h
    exact collectByFirstLetterGo_nil_eq_some entries h

/-- Witness for the amended C10: a non-empty letter is answered, a longer
string with the same first character gets the identical answer, the empty
string fails on a collection containing a non-empty normalized title, and it
succeeds on the empty collection. -/
theorem getEntriesByFirstLetter_guarded_witness :
    (GetEntriesByFirstLetter demoEntries "b").isSome = true ∧
    GetEntriesByFirstLetter demoEntries "bxyz" = GetEntriesByFirstLetter demoEntries "b" ∧
    GetEntriesByFirstLetter demoEntries "" = none ∧
    GetEntriesByFirstLetter [] "" = some [] := by
  refine ⟨(getEntriesByFirstLetter_guarded demoEntries).1 "b" (by decide),
    (getEntriesByFirstLetter_guarded demoEntries).2.1 "bxyz" "b" (by decide) (by decide),
    (getEntriesByFirstLetter_guarded demoEntries).2.2.1 ⟨entA, by decide, by decide⟩,
    (getEntriesByFirstLetter_guarded []).2.2.2 ?_⟩
  intro e he
  cases he

end Direlex
